import Mathlib

/-!
Verification of the splurge-dsv streaming DSV parser.

Strings are embedded as lists of characters (`Token`), matching Python's
view of a string as a sequence of code points.  A `Row` is a list of
tokens; a chunk is a list of rows.

The tokenizer (`StringTokenizer`), the width normalizer (`reconcile`),
the footer-withholding buffer, the chunking driver and the column
detector are not present under `src/` of this snapshot (only their tests
and callers are); those definitions are modelled from the spec, as
indicated by their doc comments.  `DsvHelper.parse`, `DsvHelper.parses`,
`DsvHelper.parse_file`, `DsvHelper.parse_file_stream` and
`DsvConfig` follow the code in `src/splurge_dsv/dsv_helper.py` and
`src/splurge_dsv/dsv.py`.
-/

/-- A token / string: a Python string as a list of code points. -/
abbrev Token := List Char

/-- A row: an ordered sequence of tokens. -/
abbrev Row := List Token

/-- Python `str.strip()` with no argument: drop leading and trailing
whitespace characters. -/
def trimChars (s : Token) : Token :=
  (((s.dropWhile Char.isWhitespace).reverse).dropWhile Char.isWhitespace).reverse

/-- Auxiliary scanner for `splitOn`: Python `str.split(sep)` for a
non-empty separator.  `cur` is the reversed current field; the fuel is
an upper bound on the remaining length (each step consumes at least one
character, so fuel `s.length` never runs out). -/
def splitOnGo (delim : Token) : Nat → Token → Token → List Token
  | 0, s, cur => [cur.reverse ++ s]
  | _ + 1, [], cur => [cur.reverse]
  | fuel + 1, c :: rest, cur =>
    if delim.isPrefixOf (c :: rest) then
      cur.reverse :: splitOnGo delim fuel ((c :: rest).drop delim.length) []
    else
      splitOnGo delim fuel rest (c :: cur)

/-- Python `str.split(sep)` for a non-empty separator `delim`
(literal occurrences, no escaping). -/
def splitOn (delim s : Token) : List Token :=
  if delim = [] then [s] else splitOnGo delim s.length s []

/-- Modelled from the spec: `StringTokenizer.parse` (the single-line
tokenizer; `string_tokenizer.py` is not under `src/`).  Per spec section 4.1:
optionally strip the line; an empty line yields a zero-token row;
otherwise split on every literal occurrence of the delimiter and, when
`strip` is true, strip each token individually. -/
def StringTokenizer.parse (content delim : Token) (strip : Bool) : List Token :=
  let line := if strip then trimChars content else content
  if line = [] then []
  else
    let toks := splitOn delim line
    if strip then toks.map trimChars else toks

/-- Modelled from the spec: `StringTokenizer.remove_bookends`
(`string_tokenizer.py` is not under `src/`).  Per spec section 4.1: apply the
optional pre-strip; then, if the token starts with and ends with the
bookend literal and its length strictly exceeds `2*len(bookend)-1`,
remove exactly one bookend-length prefix and suffix. -/
def StringTokenizer.remove_bookends (token bookend : Token) (strip : Bool) : Token :=
  let t := if strip then trimChars token else token
  if bookend.isPrefixOf t ∧ bookend.isSuffixOf t ∧ 2 * bookend.length - 1 < t.length then
    (t.drop bookend.length).take (t.length - 2 * bookend.length)
  else t

/-- Errors raised by the parsing layer (`splurge_dsv.exceptions`):
`parameterError` models `SplurgeDsvParameterError`. -/
inductive DsvError where
  | parameterError
deriving DecidableEq, Repr

/-- The bookend-removal pass of `DsvHelper.parse`
(src/splurge_dsv/dsv_helper.py lines 87-92): tokenize, then, when a
non-empty bookend is configured, remove bookends from each token. -/
def DsvHelper.parseTokens (content : Token) (delimiter : Token) (strip : Bool)
    (bookend : Option Token) (bookendStrip : Bool) : List Token :=
  let tokens := StringTokenizer.parse content delimiter strip
  match bookend with
  | some b => if b ≠ [] then tokens.map (fun t => StringTokenizer.remove_bookends t b bookendStrip) else tokens
  | none => tokens

/-- `DsvHelper.parse` (src/splurge_dsv/dsv_helper.py lines 49-92): raises
`SplurgeDsvParameterError` when the delimiter is `None` or empty,
otherwise tokenizes and removes bookends. -/
def DsvHelper.parse (content : Token) (delimiter : Option Token) (strip : Bool)
    (bookend : Option Token) (bookendStrip : Bool) : Except DsvError (List Token) :=
  match delimiter with
  | none => .error .parameterError
  | some d =>
    if d = [] then .error .parameterError
    else .ok (DsvHelper.parseTokens content d strip bookend bookendStrip)

/-- `DsvHelper.parses` (src/splurge_dsv/dsv_helper.py lines 94-136): the
list comprehension applying `DsvHelper.parse` to each line in order,
propagating the first error. -/
def DsvHelper.parses (content : List Token) (delimiter : Option Token) (strip : Bool)
    (bookend : Option Token) (bookendStrip : Bool) : Except DsvError (List (List Token)) :=
  match content with
  | [] => .ok []
  | line :: rest =>
    match DsvHelper.parse line delimiter strip bookend bookendStrip with
    | .error e => .error e
    | .ok row =>
      match DsvHelper.parses rest delimiter strip bookend bookendStrip with
      | .error e => .error e
      | .ok rows => .ok (row :: rows)

/-- The column-mismatch error (`SplurgeDsvColumnMismatchError` /
RecordWidthError): carries the expected and the actual width. -/
structure RecordWidthError where
  expected : Nat
  actual : Nat
deriving DecidableEq, Repr

/-- The pad/truncate closed form: pad a short row with empty tokens on
the right, truncate trailing tokens of a long row. -/
def padTrunc (target : Nat) (row : Row) : Row :=
  if row.length ≤ target then row ++ List.replicate (target - row.length) []
  else row.take target

/-- Modelled from the spec: `reconcile` (the width normalizer /
validator of spec section 4.2; not under `src/`).  Fails with a
RecordWidthError when the row is short and `raiseMissing` is set, or
long and `raiseExtra` is set; otherwise pads, truncates or returns the
row unchanged. -/
def reconcile (row : Row) (targetWidth : Nat) (raiseMissing raiseExtra : Bool) :
    Except RecordWidthError Row :=
  if row.length < targetWidth ∧ raiseMissing = true then
    .error ⟨targetWidth, row.length⟩
  else if targetWidth < row.length ∧ raiseExtra = true then
    .error ⟨targetWidth, row.length⟩
  else if row.length < targetWidth then
    .ok (row ++ List.replicate (targetWidth - row.length) [])
  else if targetWidth < row.length then
    .ok (row.take targetWidth)
  else .ok row

/-- Modelled from the spec: one `push` on the footer-withholding buffer
(spec section 4.3; implemented in the external safe-io reader, not under
`src/`).  Returns the new buffer and the line, if any, that became
eligible: at capacity the oldest buffered line is released; with
capacity zero the pushed line itself passes through. -/
def footerPush (capacity : Nat) (buffer : List Token) (line : Token) :
    List Token × Option Token :=
  if buffer.length < capacity then (buffer ++ [line], none)
  else
    match buffer with
    | [] => ([], some line)
    | oldest :: rest => (rest ++ [line], some oldest)

/-- Modelled from the spec: run the footer-withholding buffer over a
line stream starting from buffer `b`, returning the eligible lines in
order and the final buffer contents (which `drain()` discards). -/
def runFooterFrom (capacity : Nat) (b : List Token) : List Token → List Token × List Token
  | [] => ([], b)
  | line :: rest =>
    let step := footerPush capacity b line
    let tail := runFooterFrom capacity step.1 rest
    (step.2.toList ++ tail.1, tail.2)

/-- Modelled from the spec: the lines made eligible, and the trailing
lines discarded at end-of-stream, for capacity `skip_footer_rows`. -/
def runFooter (capacity : Nat) (lines : List Token) : List Token × List Token :=
  runFooterFrom capacity [] lines

/-- Modelled from the spec: the chunking driver's grouping step (spec
section 4.4; the streaming reader is external to `src/`): accumulate
eligible lines into chunks of `c` entries, the final chunk possibly
short, an empty stream yielding no chunks. -/
def chunksOf (c : Nat) (ls : List Token) : List (List Token) :=
  if _h : ls = [] ∨ c = 0 then (if ls = [] then [] else [ls])
  else ls.take c :: chunksOf c (ls.drop c)
termination_by ls.length
decreasing_by
  simp only [not_or] at _h
  have h1 : 0 < c := Nat.pos_of_ne_zero _h.2
  have h2 : 0 < ls.length := List.length_pos.mpr _h.1
  simp only [List.length_drop]
  omega

/-- A row is blank when every token in it is empty (including a
zero-token row), per spec section 3. -/
def blankRow (row : Row) : Bool :=
  row.all (fun t => t = [])

/-- Modelled from the spec: the column detector's state, represented as
a tagged enum per spec section 9. -/
inductive DetectState where
  | scanning (chunksScanned : Nat)
  | established (width : Nat)
  | abandoned
deriving DecidableEq, Repr

/-- Scan a chunk's rows in order for the first non-blank row, returning
the blank rows before it, the row itself and the rows after it. -/
def scanRows : List Row → Option (List Row × Row × List Row)
  | [] => none
  | r :: rest =>
    if blankRow r then
      match scanRows rest with
      | none => none
      | some (before, x, after) => some (r :: before, x, after)
    else some ([], r, rest)

/-- Reconcile every row of a list against an established width,
propagating the first width error (the established-state pass of spec
section 4.5). -/
def reconcileRows (width : Nat) (raiseMissing raiseExtra : Bool) :
    List Row → Except RecordWidthError (List Row)
  | [] => .ok []
  | r :: rest =>
    match reconcile r width raiseMissing raiseExtra with
    | .error e => .error e
    | .ok r' =>
      match reconcileRows width raiseMissing raiseExtra rest with
      | .error e => .error e
      | .ok rest' => .ok (r' :: rest')

/-- Modelled from the spec: the column detector's per-chunk transition
(spec section 4.5; the detection engine is not under `src/`).  In `scanning`,
increment the scan counter and look for the first non-blank row: if
found at index `k`, establish that row's width and reconcile it and
every later row of the chunk, leaving rows before index `k` unmodified;
if not found, abandon once the bounded window is exhausted.  In
`established`, reconcile every row; in `abandoned`, pass rows through. -/
def processChunk (maxDetectChunks : Option Nat) (raiseMissing raiseExtra : Bool)
    (st : DetectState) (chunk : List Row) :
    Except RecordWidthError (List Row × DetectState) :=
  match st with
  | .abandoned => .ok (chunk, .abandoned)
  | .established w =>
    match reconcileRows w raiseMissing raiseExtra chunk with
    | .error e => .error e
    | .ok chunk' => .ok (chunk', .established w)
  | .scanning n =>
    let n' := n + 1
    match scanRows chunk with
    | some (before, r, after) =>
      match reconcileRows r.length raiseMissing raiseExtra (r :: after) with
      | .error e => .error e
      | .ok tail => .ok (before ++ tail, .established r.length)
    | none =>
      match maxDetectChunks with
      | some m => if n' = m then .ok (chunk, .abandoned) else .ok (chunk, .scanning n')
      | none => .ok (chunk, .scanning n')

/-- Modelled from the spec: the cross-chunk column detection pass over a
stream of chunks, threading the detector state (spec section 4.5), and
returning the emitted chunks together with the final detector state. -/
def detectChunks (maxDetectChunks : Option Nat) (raiseMissing raiseExtra : Bool)
    (st : DetectState) : List (List Row) →
    Except RecordWidthError (List (List Row) × DetectState)
  | [] => .ok ([], st)
  | c :: cs =>
    match processChunk maxDetectChunks raiseMissing raiseExtra st c with
    | .error e => .error e
    | .ok (c', st') =>
      match detectChunks maxDetectChunks raiseMissing raiseExtra st' cs with
      | .error e => .error e
      | .ok (cs', stFin) => .ok (c' :: cs', stFin)

/-- `DsvConfig` (src/splurge_dsv/dsv.py lines 24-50): the frozen,
validated parse configuration.  The minimum chunk size is an
implementation constant of the external safe-io package, modelled here
as the explicit parameter `minChunkSize` of `DsvConfig.create`. -/
structure DsvConfig where
  delimiter : Token
  strip : Bool
  bookend : Option Token
  bookendStrip : Bool
  skipHeaderRows : Int
  skipFooterRows : Int
  chunkSize : Int
deriving DecidableEq, Repr

/-- `DsvConfig.__post_init__` (src/splurge_dsv/dsv.py lines 52-66):
construction validates, in order, that the delimiter is neither missing
nor empty, that the chunk size is at least the minimum, and that the
header and footer skip counts are non-negative; any violation raises
`SplurgeDsvParameterError` and no configuration object is produced. -/
def DsvConfig.create (minChunkSize : Nat) (delimiter : Option Token) (strip : Bool)
    (bookend : Option Token) (bookendStrip : Bool)
    (skipHeaderRows skipFooterRows chunkSize : Int) : Except DsvError DsvConfig :=
  if delimiter.getD [] = [] then .error .parameterError
  else if chunkSize < (minChunkSize : Int) then .error .parameterError
  else if skipHeaderRows < 0 then .error .parameterError
  else if skipFooterRows < 0 then .error .parameterError
  else .ok
    { delimiter := delimiter.getD []
      strip := strip
      bookend := bookend
      bookendStrip := bookendStrip
      skipHeaderRows := skipHeaderRows
      skipFooterRows := skipFooterRows
      chunkSize := chunkSize }

/-- Modelled from the spec: the external line source plus header-skip
and footer-withholding pipeline (spec sections 4.3-4.4 and 6; the safe-io
reader is not under `src/`): drop the first `skipH` lines, run the
footer buffer of capacity `skipF`, and strip each surviving line when
`strip` is set. -/
def readerLines (lines : List Token) (strip : Bool) (skipH skipF : Nat) : List Token :=
  let eligible := (runFooter skipF (lines.drop skipH)).1
  if strip then eligible.map trimChars else eligible

/-- `DsvHelper.parse_file` (src/splurge_dsv/dsv_helper.py lines 171-235,
I/O replaced by the line list the reader yields): negative skip counts
are clamped to the defaults (0) via `max`, then the reader's surviving
lines are parsed with `DsvHelper.parses`. -/
def DsvHelper.parse_file (lines : List Token) (delimiter : Option Token) (strip : Bool)
    (bookend : Option Token) (bookendStrip : Bool) (skipHeaderRows skipFooterRows : Int) :
    Except DsvError (List (List Token)) :=
  let h := max skipHeaderRows 0
  let f := max skipFooterRows 0
  DsvHelper.parses (readerLines lines strip h.toNat f.toNat) delimiter strip bookend bookendStrip

/-- Tokenize a stream of line chunks chunk by chunk
(`DsvHelper._process_stream_chunk` applied per chunk), propagating the
first error. -/
def DsvHelper.parseChunks (chunks : List (List Token)) (delimiter : Option Token)
    (strip : Bool) (bookend : Option Token) (bookendStrip : Bool) :
    Except DsvError (List (List (List Token))) :=
  match chunks with
  | [] => .ok []
  | c :: cs =>
    match DsvHelper.parses c delimiter strip bookend bookendStrip with
    | .error e => .error e
    | .ok rows =>
      match DsvHelper.parseChunks cs delimiter strip bookend bookendStrip with
      | .error e => .error e
      | .ok rest => .ok (rows :: rest)

/-- `DsvHelper.parse_file_stream` (src/splurge_dsv/dsv_helper.py lines
265-333, I/O replaced by the line list the reader yields): the chunk
size is clamped to the implementation minimum and negative skip counts
to 0 via `max`; the reader's surviving lines are grouped into chunks and
each chunk is tokenized. -/
def DsvHelper.parse_file_stream (lines : List Token) (delimiter : Option Token)
    (strip : Bool) (bookend : Option Token) (bookendStrip : Bool)
    (skipHeaderRows skipFooterRows chunkSize : Int) (minChunkSize : Nat) :
    Except DsvError (List (List (List Token))) :=
  let c := max chunkSize (minChunkSize : Int)
  let h := max skipHeaderRows 0
  let f := max skipFooterRows 0
  let chunks := chunksOf c.toNat (readerLines lines strip h.toNat f.toNat)
  DsvHelper.parseChunks chunks delimiter strip bookend bookendStrip

/-- C2: `reconcile` raises a RecordWidthError if and only if the row is
narrower than the target with `raiseMissing` set or wider with
`raiseExtra` set; in every other case it returns a row of exactly the
target width, padding short rows with empty tokens on the right,
truncating trailing tokens of long rows, and returning rows of the
target width unchanged (idempotence). -/
theorem reconcile_spec (row : Row) (t : Nat) (rm re : Bool) :
    ((∃ e, reconcile row t rm re = .error e) ↔
      ((row.length < t ∧ rm = true) ∨ (t < row.length ∧ re = true))) ∧
    (∀ e, reconcile row t rm re = .error e → e.expected = t ∧ e.actual = row.length) ∧
    (∀ out, reconcile row t rm re = .ok out → out.length = t ∧ out = padTrunc t row) ∧
    (row.length = t → reconcile row t rm re = .ok row) := by
  unfold reconcile
  split_ifs with h1 h2 h3 h4
  · refine ⟨⟨fun _ => Or.inl h1, fun _ => ⟨_, rfl⟩⟩, ?_, ?_, ?_⟩
    · intro e he
      cases he
      exact ⟨rfl, rfl⟩
    · intro out hout; cases hout
    · intro ht; omega
  · refine ⟨⟨fun _ => Or.inr h2, fun _ => ⟨_, rfl⟩⟩, ?_, ?_, ?_⟩
    · intro e he
      cases he
      exact ⟨rfl, rfl⟩
    · intro out hout; cases hout
    · intro ht; omega
  · refine ⟨⟨fun h => ?_, fun h => ?_⟩, ?_, ?_, ?_⟩
    · obtain ⟨e, he⟩ := h; cases he
    · rcases h with h | h
      · exact absurd ⟨h.1, h.2⟩ h1
      · exact absurd ⟨h.1, h.2⟩ h2
    · intro e he; cases he
    · intro out hout
      cases hout
      constructor
      · simp [List.length_append, List.length_replicate]; omega
      · simp [padTrunc, Nat.le_of_lt h3]
    · intro ht; omega
  · refine ⟨⟨fun h => ?_, fun h => ?_⟩, ?_, ?_, ?_⟩
    · obtain ⟨e, he⟩ := h; cases he
    · rcases h with h | h
      · exact absurd ⟨h.1, h.2⟩ h1
      · exact absurd ⟨h.1, h.2⟩ h2
    · intro e he; cases he
    · intro out hout
      cases hout
      constructor
      · simp [List.length_take]; omega
      · rw [padTrunc, if_neg (by omega)]
    · intro ht; omega
  · have ht : row.length = t := by omega
    refine ⟨⟨fun h => ?_, fun h => ?_⟩, ?_, ?_, ?_⟩
    · obtain ⟨e, he⟩ := h; cases he
    · rcases h with h | h <;> omega
    · intro e he; cases he
    · intro out hout
      cases hout
      refine ⟨ht, ?_⟩
      simp [padTrunc, ht]
    · intro _; rfl

/-- Witness for C2: the spec's strict-validation example, evaluated via
the theorem at the concrete row `["a","b"]` and target width 3. -/
theorem reconcile_spec_witness :
    ([['a'], ['b'], ([] : Token)].length = 3 ∧
      [['a'], ['b'], ([] : Token)] = padTrunc 3 [['a'], ['b']]) ∧
    ((List.length (α := Token) [['a'], ['b']] < 3 ∧ true = true) ∨
      (3 < List.length (α := Token) [['a'], ['b']] ∧ false = true)) := by
  refine ⟨(reconcile_spec [['a'], ['b']] 3 false false).2.2.1 [['a'], ['b'], []] (by rfl), ?_⟩
  exact (reconcile_spec [['a'], ['b']] 3 true false).1.mp ⟨⟨3, 2⟩, by rfl⟩

/-- C8: constructing a `DsvConfig` with a missing or empty delimiter, a
negative `skip_header_rows` or `skip_footer_rows`, or a `chunk_size`
below the implementation minimum raises `SplurgeDsvParameterError` at
construction time, so no configuration object is produced; every
successfully constructed configuration has a non-empty delimiter,
non-negative skip counts and a chunk size at least the minimum. -/
theorem dsvConfig_validation (mcs : Nat) (d : Option Token) (strip : Bool)
    (bookend : Option Token) (bs : Bool) (h f c : Int) :
    ((∃ cfg, DsvConfig.create mcs d strip bookend bs h f c = .ok cfg) ↔
      (d.getD [] ≠ [] ∧ (mcs : Int) ≤ c ∧ 0 ≤ h ∧ 0 ≤ f)) ∧
    (∀ cfg, DsvConfig.create mcs d strip bookend bs h f c = .ok cfg →
      cfg.delimiter ≠ [] ∧ 0 ≤ cfg.skipHeaderRows ∧ 0 ≤ cfg.skipFooterRows ∧
      (mcs : Int) ≤ cfg.chunkSize ∧
      cfg = ⟨d.getD [], strip, bookend, bs, h, f, c⟩) := by
  unfold DsvConfig.create
  split_ifs with h1 h2 h3 h4
  · refine ⟨⟨fun hex => ?_, fun hok => absurd h1 hok.1⟩, fun cfg hcfg => by cases hcfg⟩
    obtain ⟨cfg, hcfg⟩ := hex; cases hcfg
  · refine ⟨⟨fun hex => ?_, fun hok => by omega⟩, fun cfg hcfg => by cases hcfg⟩
    obtain ⟨cfg, hcfg⟩ := hex; cases hcfg
  · refine ⟨⟨fun hex => ?_, fun hok => by omega⟩, fun cfg hcfg => by cases hcfg⟩
    obtain ⟨cfg, hcfg⟩ := hex; cases hcfg
  · refine ⟨⟨fun hex => ?_, fun hok => by omega⟩, fun cfg hcfg => by cases hcfg⟩
    obtain ⟨cfg, hcfg⟩ := hex; cases hcfg
  · refine ⟨⟨fun _ => ⟨h1, by omega, by omega, by omega⟩, fun _ => ⟨_, rfl⟩⟩,
      fun cfg hcfg => ?_⟩
    cases hcfg
    refine ⟨h1, ?_, ?_, ?_, rfl⟩
    · show (0 : Int) ≤ h; omega
    · show (0 : Int) ≤ f; omega
    · show (mcs : Int) ≤ c; omega

/-- Witness for C8: a valid CSV configuration is constructed intact, and
a negative header-skip is rejected with no configuration produced. -/
theorem dsvConfig_validation_witness :
    (∃ cfg, DsvConfig.create 100 (some [',']) true none true 0 0 500 = .ok cfg) ∧
    ¬ (Option.getD (α := Token) (some [',']) [] ≠ [] ∧ (100 : Int) ≤ 500 ∧
        (0 : Int) ≤ -1 ∧ (0 : Int) ≤ 0) := by
  constructor
  · exact (dsvConfig_validation 100 (some [',']) true none true 0 0 500).1.mpr
      ⟨by decide, by norm_num, by norm_num, by norm_num⟩
  · intro hcontra
    have := (dsvConfig_validation 100 (some [',']) true none true (-1) 0 500).1.mpr
      ⟨hcontra.1, hcontra.2.1, hcontra.2.2.1, hcontra.2.2.2⟩
    obtain ⟨cfg, hcfg⟩ := this
    have h2 := (dsvConfig_validation 100 (some [',']) true none true (-1) 0 500).1.mp ⟨cfg, hcfg⟩
    omega

/-- C7 counterexample: for the one-character bookend `"`, the token
consisting of exactly the two bookend characters satisfies the removal
condition (its length 2 strictly exceeds `2*1-1 = 1`), so it IS
stripped, to the empty token — it is not left as-is. -/
theorem remove_bookends_two_bookends_counterexample :
    StringTokenizer.remove_bookends ['\"', '\"'] ['\"'] false = [] ∧
    StringTokenizer.remove_bookends ['\"', '\"'] ['\"'] false ≠ ['\"', '\"'] := by
  constructor
  · rfl
  · intro h; cases h

/-- C7 (amended): for every token and non-empty bookend, with `t` the
token after the optional pre-strip, bookend removal deletes exactly one
bookend-length prefix and one bookend-length suffix if and only if `t`
starts with and ends with the bookend and its length strictly exceeds
`2*len(bookend)-1`; a token failing either condition is returned as `t`
unchanged.  In the removal case the result reconstructs `t` as
`bookend ++ result ++ bookend`; a token of exactly two one-character
bookends satisfies the condition and is stripped to the empty token. -/
theorem remove_bookends_spec (token bookend t : Token) (strip : Bool)
    (hb : bookend ≠ []) (ht : t = if strip then trimChars token else token) :
    ((bookend.isPrefixOf t ∧ bookend.isSuffixOf t ∧ 2 * bookend.length - 1 < t.length) →
      bookend ++ StringTokenizer.remove_bookends token bookend strip ++ bookend = t ∧
      (StringTokenizer.remove_bookends token bookend strip).length =
        t.length - 2 * bookend.length) ∧
    (¬(bookend.isPrefixOf t ∧ bookend.isSuffixOf t ∧ 2 * bookend.length - 1 < t.length) →
      StringTokenizer.remove_bookends token bookend strip = t) := by
  have hrw : StringTokenizer.remove_bookends token bookend strip =
      if bookend.isPrefixOf t ∧ bookend.isSuffixOf t ∧ 2 * bookend.length - 1 < t.length then
        (t.drop bookend.length).take (t.length - 2 * bookend.length)
      else t := by
    rw [StringTokenizer.remove_bookends, ← ht]
  constructor
  · rintro hcond
    obtain ⟨hp, hs, hl⟩ := hcond
    rw [hrw, if_pos ⟨hp, hs, hl⟩]
    have hb' : 0 < bookend.length := List.length_pos.mpr hb
    have hp' : bookend <+: t := List.isPrefixOf_iff_prefix.mp hp
    have hs' : bookend <:+ t := List.isSuffixOf_iff_suffix.mp hs
    obtain ⟨u, hu⟩ := hp'
    obtain ⟨v, hv⟩ := hs'
    have hlen : 2 * bookend.length ≤ t.length := by omega
    have hlvt : v.length + bookend.length = t.length := by
      rw [← hv, List.length_append]
    have hlut : bookend.length + u.length = t.length := by
      rw [← hu, List.length_append]
    have hlv : bookend.length ≤ v.length := by omega
    have hudrop : u = v.drop bookend.length ++ bookend := by
      have h1 : t.drop bookend.length = u := by
        rw [← hu, List.drop_append_of_le_length (le_refl _), List.drop_length,
          List.nil_append]
      have h2 : t.drop bookend.length = v.drop bookend.length ++ bookend := by
        rw [← hv, List.drop_append_of_le_length hlv]
      rw [← h1, h2]
    have hmid : (t.drop bookend.length).take (t.length - 2 * bookend.length) =
        v.drop bookend.length := by
      have h1 : t.drop bookend.length = u := by
        rw [← hu, List.drop_append_of_le_length (le_refl _), List.drop_length,
          List.nil_append]
      rw [h1, hudrop]
      have h3 : t.length - 2 * bookend.length = (v.drop bookend.length).length := by
        simp only [List.length_drop]
        omega
      rw [h3, List.take_left]
    rw [hmid]
    constructor
    · rw [← hu, hudrop, ← List.append_assoc]
    · simp only [List.length_drop]
      omega
  · intro hcond
    rw [hrw, if_neg hcond]

/-- Witness for C7: the bookend-symmetry example `"ab"` with the
one-character bookend `"` recovers `ab`, and the lone bookend character
fails the length condition and is left unchanged. -/
theorem remove_bookends_spec_witness :
    (['\"'] ++ StringTokenizer.remove_bookends ['\"', 'a', 'b', '\"'] ['\"'] false ++ ['\"'] =
        ['\"', 'a', 'b', '\"'] ∧
      (StringTokenizer.remove_bookends ['\"', 'a', 'b', '\"'] ['\"'] false).length = 2) ∧
    StringTokenizer.remove_bookends ['\"'] ['\"'] false = ['\"'] := by
  constructor
  · have h := (remove_bookends_spec ['\"', 'a', 'b', '\"'] ['\"'] ['\"', 'a', 'b', '\"'] false
      (by decide) (by rfl)).1 ⟨by decide, by decide, by decide⟩
    exact ⟨h.1, h.2⟩
  · exact (remove_bookends_spec ['\"'] ['\"'] ['\"'] false (by decide) (by rfl)).2
      (by decide)

/-- No occurrence of the (non-empty) delimiter in the suffix keeps the
scanner accumulating: the whole remaining input becomes one field. -/
theorem splitOnGo_of_not_infix (delim : Token) :
    ∀ (fuel : Nat) (s cur : Token), s.length ≤ fuel → ¬ delim <:+: s →
      splitOnGo delim fuel s cur = [cur.reverse ++ s] := by
  intro fuel
  induction fuel with
  | zero =>
    intro s cur hle _
    have hs : s = [] := List.length_eq_zero.mp (Nat.le_zero.mp hle)
    subst hs
    rfl
  | succ n ih =>
    intro s cur hle hni
    cases s with
    | nil => simp [splitOnGo]
    | cons c rest =>
      rw [splitOnGo]
      rw [if_neg ?hpre]
      case hpre =>
        intro hpre
        exact hni ( List.isPrefixOf_iff_prefix.mp hpre).isInfix
      rw [ih rest (c :: cur) (by simp at hle ⊢; omega) ?hrest]
      case hrest =>
        intro hinf
        exact hni (hinf.trans (List.suffix_cons c rest).isInfix)
      simp

/-- Splitting a string that does not contain the delimiter yields the
single field equal to the whole string. -/
theorem splitOn_of_not_infix (delim s : Token) (hd : delim ≠ []) (hni : ¬ delim <:+: s) :
    splitOn delim s = [s] := by
  rw [splitOn, if_neg hd, splitOnGo_of_not_infix delim s.length s [] (le_refl _) hni]
  simp

/-- C3: for every non-empty delimiter and both values of the strip flag,
tokenizing the empty string yields a zero-token row (not a single empty
token), and every non-empty string not containing the delimiter,
tokenized with `strip = false`, yields exactly the single-token row
`[s]`. -/
theorem tokenize_empty_and_singleton (delim s : Token) (strip : Bool)
    (hd : delim ≠ []) (hs : s ≠ []) (hni : ¬ delim <:+: s) :
    StringTokenizer.parse [] delim strip = [] ∧
    StringTokenizer.parse s delim false = [s] := by
  constructor
  · cases strip <;> simp [StringTokenizer.parse, trimChars]
  · rw [StringTokenizer.parse]
    simp only [if_neg hs, Bool.false_eq_true, if_false]
    exact splitOn_of_not_infix delim s hd hni

/-- Witness for C3: the comma delimiter on the empty string and on the
delimiter-free string `ab`. -/
theorem tokenize_empty_and_singleton_witness :
    StringTokenizer.parse [] [','] true = [] ∧
    StringTokenizer.parse ['a', 'b'] [','] false = [['a', 'b']] :=
  tokenize_empty_and_singleton [','] ['a', 'b'] true (by decide) (by decide) (by decide)

/-- C9: `DsvHelper.parses` is the element-wise application of
`DsvHelper.parse` to each line independently, in order: with a valid
delimiter it returns exactly the map of the single-line tokenizer over
the lines, and whenever it succeeds the produced rows are that map — no
cross-line state influences any row. -/
theorem parses_elementwise (content : List Token) (d : Option Token) (strip : Bool)
    (bookend : Option Token) (bs : Bool) :
    (∀ dl, d = some dl → dl ≠ [] →
      DsvHelper.parses content d strip bookend bs =
        .ok (content.map fun line => DsvHelper.parseTokens line dl strip bookend bs)) ∧
    (∀ rows, DsvHelper.parses content d strip bookend bs = .ok rows →
      rows = content.map fun line => DsvHelper.parseTokens line (d.getD []) strip bookend bs) := by
  induction content with
  | nil => exact ⟨fun _ _ _ => rfl, fun rows h => by cases h; rfl⟩
  | cons line rest ih =>
    constructor
    · rintro dl rfl hdl
      rw [DsvHelper.parses]
      simp only [DsvHelper.parse, if_neg hdl]
      rw [ih.1 dl rfl hdl]
      simp
    · intro rows h
      rw [DsvHelper.parses] at h
      cases hp : DsvHelper.parse line d strip bookend bs with
      | error e => rw [hp] at h; cases h
      | ok row =>
        rw [hp] at h
        cases hps : DsvHelper.parses rest d strip bookend bs with
        | error e => rw [hps] at h; cases h
        | ok rows' =>
          rw [hps] at h
          cases h
          have hrow : row = DsvHelper.parseTokens line (d.getD []) strip bookend bs := by
            cases d with
            | none => cases hp
            | some dl =>
              rw [DsvHelper.parse] at hp
              by_cases hdl : dl = []
              · rw [if_pos hdl] at hp; cases hp
              · rw [if_neg hdl] at hp; cases hp; rfl
          rw [hrow, ih.2 rows' hps]
          rfl

/-- Witness for C9: two comma-separated lines parse to the map of the
single-line tokenizer over them. -/
theorem parses_elementwise_witness :
    DsvHelper.parses [['a', ',', 'b'], ['c']] (some [',']) false none false =
      .ok [[['a'], ['b']], [['c']]] := by
  have h := (parses_elementwise [['a', ',', 'b'], ['c']] (some [',']) false none false).1
    [','] rfl (by decide)
  rw [h]
  rfl

/-- Running the footer buffer from a buffer holding at most `capacity`
lines releases, in order, exactly the lines that overflow the window of
the last `capacity` elements, and ends holding that window. -/
theorem runFooterFrom_eq (f : Nat) :
    ∀ (ls b : List Token), b.length ≤ f →
      runFooterFrom f b ls =
        ((b ++ ls).take (b.length + ls.length - f), (b ++ ls).drop (b.length + ls.length - f)) := by
  intro ls
  induction ls with
  | nil =>
    intro b hb
    rw [runFooterFrom]
    simp [Nat.sub_eq_zero_of_le hb]
  | cons l rest ih =>
    intro b hb
    rw [runFooterFrom]
    by_cases hlt : b.length < f
    · unfold footerPush
      rw [if_pos hlt]
      simp only [Option.toList_none, List.nil_append]
      rw [ih (b ++ [l]) (by simp; omega)]
      have e1 : (b ++ [l]) ++ rest = b ++ l :: rest := by simp
      have e2 : (b ++ [l]).length + rest.length - f = b.length + (l :: rest).length - f := by
        simp
        omega
      rw [e1, e2]
    · have hbf : b.length = f := by omega
      cases b with
      | nil =>
        have hf0 : f = 0 := by simpa using hbf.symm
        subst hf0
        unfold footerPush
        simp only [List.length_nil, Nat.lt_irrefl, if_false]
        rw [ih [] (by simp)]
        simp
      | cons x bs =>
        unfold footerPush
        rw [if_neg hlt]
        simp only
        rw [ih (bs ++ [l]) (by simp at hbf ⊢; omega)]
        have e1 : (bs ++ [l]) ++ rest = bs ++ l :: rest := by simp
        have e2 : (bs ++ [l]).length + rest.length - f = rest.length := by
          simp at hbf ⊢
          omega
        have e3 : (x :: bs).length + (l :: rest).length - f = rest.length + 1 := by
          simp at hbf ⊢
          omega
        rw [e1, e2, e3]
        simp only [Option.toList_some, List.singleton_append, List.cons_append]
        rw [List.take_succ_cons, List.drop_succ_cons]
        simp

/-- C4: for a stream of `L` lines and `skip_footer_rows = f ≤ L`, the
footer-withholding buffer makes eligible exactly the first `L - f` lines
in original order; the `f` lines still buffered at end-of-stream are
exactly the trailing `f` lines and are discarded with nothing emitted;
the buffer never holds more than `f` lines (memory `O(f)`); with `f = 0`
every line is immediately eligible; and a push onto a buffer at
capacity releases the oldest buffered line. -/
theorem footer_buffer_spec (f : Nat) (lines : List Token) (hf : f ≤ lines.length) :
    (runFooter f lines).1 = lines.take (lines.length - f) ∧
    (runFooter f lines).2 = lines.drop (lines.length - f) ∧
    (runFooter f lines).2.length = f ∧
    (∀ n, ((runFooter f (lines.take n)).2).length ≤ f) ∧
    (f = 0 → (runFooter f lines).1 = lines) ∧
    (∀ (x : Token) (bs : List Token) (line : Token), (x :: bs).length = f →
      footerPush f (x :: bs) line = (bs ++ [line], some x)) := by
  have hrun : runFooter f lines =
      (lines.take (lines.length - f), lines.drop (lines.length - f)) := by
    rw [runFooter, runFooterFrom_eq f lines [] (by simp)]
    simp
  refine ⟨by rw [hrun], by rw [hrun], ?_, ?_, ?_, ?_⟩
  · rw [hrun]
    simp only [List.length_drop]
    omega
  · intro n
    rw [runFooter, runFooterFrom_eq f (lines.take n) [] (by simp)]
    simp only [List.nil_append, List.length_nil, Nat.zero_add, List.length_drop]
    omega
  · intro h0
    subst h0
    rw [hrun]
    simp
  · intro x bs line hlen
    unfold footerPush
    rw [if_neg (by omega)]

/-- Witness for C4: three lines with a footer window of one: the first
two lines are eligible, the third is withheld and discarded. -/
theorem footer_buffer_spec_witness :
    (runFooter 1 [['a'], ['b'], ['c']]).1 = [['a'], ['b']] ∧
    (runFooter 1 [['a'], ['b'], ['c']]).2 = [['c']] := by
  have h := footer_buffer_spec 1 [['a'], ['b'], ['c']] (by decide)
  exact ⟨h.1, h.2.1⟩

theorem chunksOf_nil (c : Nat) : chunksOf c [] = [] := by
  rw [chunksOf]
  simp

theorem chunksOf_cons (c : Nat) (ls : List Token) (hc : c ≠ 0) (hl : ls ≠ []) :
    chunksOf c ls = ls.take c :: chunksOf c (ls.drop c) := by
  rw [chunksOf]
  rw [dif_neg (by simp [hc, hl])]

theorem chunksOf_ne_nil (c : Nat) (ls : List Token) (hc : c ≠ 0) (hl : ls ≠ []) :
    chunksOf c ls ≠ [] := by
  rw [chunksOf_cons c ls hc hl]
  simp

/-- Every property of the chunk grouping, proved together by strong
induction on the stream length. -/
theorem chunksOf_props (c : Nat) (hc : 0 < c) :
    ∀ (N : Nat) (ls : List Token), ls.length ≤ N →
      (∀ ch ∈ (chunksOf c ls).dropLast, ch.length = c) ∧
      (∀ ch ∈ chunksOf c ls, 1 ≤ ch.length ∧ ch.length ≤ c) ∧
      (chunksOf c ls).flatten = ls := by
  intro N
  induction N with
  | zero =>
    intro ls h
    have hl : ls = [] := List.length_eq_zero.mp (Nat.le_zero.mp h)
    subst hl
    simp [chunksOf_nil]
  | succ n ih =>
    intro ls h
    by_cases hl : ls = []
    · subst hl
      simp [chunksOf_nil]
    · rw [chunksOf_cons c ls (by omega) hl]
      have hlen : 0 < ls.length := List.length_pos.mpr hl
      have hdrop : (ls.drop c).length ≤ n := by
        simp only [List.length_drop]
        omega
      obtain ⟨ih1, ih2, ih3⟩ := ih (ls.drop c) hdrop
      refine ⟨?_, ?_, ?_⟩
      · intro ch hch
        by_cases hd : ls.drop c = []
        · rw [hd, chunksOf_nil] at hch
          simp at hch
        · have hne := chunksOf_ne_nil c (ls.drop c) (by omega) hd
          rw [List.dropLast_cons_of_ne_nil hne] at hch
          rcases List.mem_cons.mp hch with h1 | h1
          · subst h1
            have hcle : c ≤ ls.length := by
              by_contra hcon
              have : ls.drop c = [] := List.drop_eq_nil_of_le (by omega)
              exact hd this
            simp [List.length_take]
            omega
          · exact ih1 ch h1
      · intro ch hch
        rcases List.mem_cons.mp hch with h1 | h1
        · subst h1
          simp only [List.length_take]
          omega
        · exact ih2 ch h1
      · simp only [List.flatten_cons]
        rw [ih3, List.take_append_drop]

/-- Chunk boundaries depend only on the number of eligible lines, never
on their content. -/
theorem chunksOf_boundaries_content_free (c : Nat) (hc : 0 < c) :
    ∀ (N : Nat) (ls ls' : List Token), ls.length ≤ N → ls.length = ls'.length →
      (chunksOf c ls).map List.length = (chunksOf c ls').map List.length := by
  intro N
  induction N with
  | zero =>
    intro ls ls' h heq
    have hl : ls = [] := List.length_eq_zero.mp (Nat.le_zero.mp h)
    have hlen' : ls'.length = 0 := by omega
    have hl' : ls' = [] := List.length_eq_zero.mp hlen'
    subst hl; subst hl'
    rfl
  | succ n ih =>
    intro ls ls' h heq
    by_cases hl : ls = []
    · have hlen0 : ls.length = 0 := by simp [hl]
      have hl' : ls' = [] := List.length_eq_zero.mp (by omega)
      subst hl; subst hl'
      rfl
    · have hl' : ls' ≠ [] := by
        intro hcon
        apply hl
        apply List.length_eq_zero.mp
        rw [heq, hcon]
        rfl
      rw [chunksOf_cons c ls (by omega) hl, chunksOf_cons c ls' (by omega) hl']
      simp only [List.map_cons, List.length_take]
      rw [heq]
      have : (chunksOf c (ls.drop c)).map List.length =
          (chunksOf c (ls'.drop c)).map List.length := by
        apply ih
        · simp only [List.length_drop]
          have : 0 < ls.length := List.length_pos.mpr hl
          omega
        · simp only [List.length_drop, heq]
      rw [this]

/-- C5: with `chunk_size = c > 0`, every emitted chunk except possibly
the last has exactly `c` rows, the final chunk has between 1 and `c`
rows, zero eligible lines yield zero chunks, the total number of rows
across chunks equals the number of eligible lines (the concatenation of
the chunks is the eligible stream itself, in order), and chunk
boundaries are a function of `c` and the stream length only, never of
content. -/
theorem chunk_size_invariant (c : Nat) (hc : 0 < c) (ls : List Token) :
    (∀ ch ∈ (chunksOf c ls).dropLast, ch.length = c) ∧
    (∀ ch ∈ chunksOf c ls, 1 ≤ ch.length ∧ ch.length ≤ c) ∧
    (chunksOf c ls).flatten = ls ∧
    (((chunksOf c ls).map List.length).sum = ls.length) ∧
    (ls = [] → chunksOf c ls = []) ∧
    (∀ ls' : List Token, ls.length = ls'.length →
      (chunksOf c ls).map List.length = (chunksOf c ls').map List.length) := by
  obtain ⟨h1, h2, h3⟩ := chunksOf_props c hc ls.length ls (le_refl _)
  refine ⟨h1, h2, h3, ?_, ?_, ?_⟩
  · have hlen := congrArg List.length h3
    rw [List.length_flatten] at hlen
    exact hlen
  · intro hl
    subst hl
    exact chunksOf_nil c
  · intro ls' heq
    exact chunksOf_boundaries_content_free c hc ls.length ls ls' (le_refl _) heq

/-- Witness for C5: five lines with `chunk_size = 2` form chunks of
sizes 2, 2, 1. -/
theorem chunk_size_invariant_witness :
    chunksOf 2 [['a'], ['b'], ['c'], ['d'], ['e']] =
      [[['a'], ['b']], [['c'], ['d']], [['e']]] ∧
    (chunksOf 2 [['a'], ['b'], ['c'], ['d'], ['e']]).flatten =
      [['a'], ['b'], ['c'], ['d'], ['e']] := by
  constructor
  · have e1 : List.drop 2 [['a'], ['b'], ['c'], ['d'], ['e']] = [['c'], ['d'], ['e']] := by
      decide
    have e2 : List.drop 2 [['c'], ['d'], ['e']] = [['e']] := by decide
    have e3 : List.drop 2 [['e']] = ([] : List Token) := by decide
    rw [chunksOf_cons 2 _ (by decide) (by decide), e1,
      chunksOf_cons 2 _ (by decide) (by decide), e2,
      chunksOf_cons 2 _ (by decide) (by decide), e3, chunksOf_nil 2]
    decide
  · exact (chunk_size_invariant 2 (by decide) [['a'], ['b'], ['c'], ['d'], ['e']]).2.2.1

/-- C10: calling `DsvHelper.parse_file` or `DsvHelper.parse_file_stream`
directly with a negative `skip_header_rows` or `skip_footer_rows` does
not raise: each negative value is silently clamped to 0 (the call
behaves exactly as with 0), and a `chunk_size` below the implementation
minimum makes `parse_file_stream` behave exactly as with the minimum. -/
theorem parse_file_clamps_out_of_range (lines : List Token) (d : Option Token)
    (strip : Bool) (bookend : Option Token) (bs : Bool)
    (skipH skipF chunkSize : Int) (minChunk : Nat) :
    (skipH < 0 →
      DsvHelper.parse_file lines d strip bookend bs skipH skipF =
        DsvHelper.parse_file lines d strip bookend bs 0 skipF) ∧
    (skipF < 0 →
      DsvHelper.parse_file lines d strip bookend bs skipH skipF =
        DsvHelper.parse_file lines d strip bookend bs skipH 0) ∧
    (skipH < 0 →
      DsvHelper.parse_file_stream lines d strip bookend bs skipH skipF chunkSize minChunk =
        DsvHelper.parse_file_stream lines d strip bookend bs 0 skipF chunkSize minChunk) ∧
    (skipF < 0 →
      DsvHelper.parse_file_stream lines d strip bookend bs skipH skipF chunkSize minChunk =
        DsvHelper.parse_file_stream lines d strip bookend bs skipH 0 chunkSize minChunk) ∧
    (chunkSize < (minChunk : Int) →
      DsvHelper.parse_file_stream lines d strip bookend bs skipH skipF chunkSize minChunk =
        DsvHelper.parse_file_stream lines d strip bookend bs skipH skipF (minChunk : Int)
          minChunk) := by
  refine ⟨?_, ?_, ?_, ?_, ?_⟩
  · intro h
    rw [DsvHelper.parse_file, DsvHelper.parse_file]
    rw [max_eq_right (le_of_lt h)]
    rw [max_self]
  · intro h
    rw [DsvHelper.parse_file, DsvHelper.parse_file]
    rw [max_eq_right (le_of_lt h)]
    rw [max_self]
  · intro h
    rw [DsvHelper.parse_file_stream, DsvHelper.parse_file_stream]
    rw [max_eq_right (le_of_lt h)]
    rw [max_self]
  · intro h
    rw [DsvHelper.parse_file_stream, DsvHelper.parse_file_stream]
    rw [max_eq_right (le_of_lt h)]
    rw [max_self]
  · intro h
    rw [DsvHelper.parse_file_stream, DsvHelper.parse_file_stream]
    rw [max_eq_right (le_of_lt h)]
    rw [max_self]

/-- Witness for C10: skip counts of -3 behave as 0 and a chunk size of 1
behaves as the minimum 100 on a two-line input. -/
theorem parse_file_clamps_out_of_range_witness :
    DsvHelper.parse_file [['a'], ['b']] (some [',']) false none false (-3) 0 =
      DsvHelper.parse_file [['a'], ['b']] (some [',']) false none false 0 0 ∧
    DsvHelper.parse_file_stream [['a'], ['b']] (some [',']) false none false 0 0 1 100 =
      DsvHelper.parse_file_stream [['a'], ['b']] (some [',']) false none false 0 0 100 100 := by
  constructor
  · exact (parse_file_clamps_out_of_range [['a'], ['b']] (some [',']) false none false
      (-3) 0 1 100).1 (by norm_num)
  · exact (parse_file_clamps_out_of_range [['a'], ['b']] (some [',']) false none false
      0 0 1 100).2.2.2.2 (by norm_num)

/-- Closed form of `reconcile`: an error exactly under a strict-flag
violation, otherwise the pad/truncate normal form. -/
theorem reconcile_eq (row : Row) (w : Nat) (rm re : Bool) :
    reconcile row w rm re =
      if (row.length < w ∧ rm = true) ∨ (w < row.length ∧ re = true) then
        .error ⟨w, row.length⟩
      else .ok (padTrunc w row) := by
  unfold reconcile
  by_cases h1 : row.length < w ∧ rm = true
  · rw [if_pos h1, if_pos (Or.inl h1)]
  · rw [if_neg h1]
    by_cases h2 : w < row.length ∧ re = true
    · rw [if_pos h2, if_pos (Or.inr h2)]
    · rw [if_neg h2,
        if_neg (fun hor => Or.elim hor (fun hx => h1 hx) (fun hx => h2 hx))]
      by_cases h3 : row.length < w
      · rw [if_pos h3, padTrunc, if_pos (Nat.le_of_lt h3)]
      · by_cases h4 : w < row.length
        · rw [if_neg h3, if_pos h4, padTrunc, if_neg (by omega)]
        · rw [if_neg h3, if_neg h4, padTrunc, if_pos (by omega)]
          have hz : w - row.length = 0 := by omega
          rw [hz]
          simp

theorem reconcile_ok_padTrunc (row : Row) (w : Nat) (rm re : Bool) (out : Row)
    (h : reconcile row w rm re = .ok out) : out = padTrunc w row := by
  rw [reconcile_eq] at h
  split_ifs at h
  cases h
  rfl

theorem reconcile_false_false (row : Row) (w : Nat) :
    reconcile row w false false = .ok (padTrunc w row) := by
  rw [reconcile_eq]
  simp

theorem reconcileRows_ok_map (w : Nat) (rm re : Bool) :
    ∀ (rows out : List Row), reconcileRows w rm re rows = .ok out →
      out = rows.map (padTrunc w) := by
  intro rows
  induction rows with
  | nil => intro out h; cases h; rfl
  | cons r rest ih =>
    intro out h
    rw [reconcileRows] at h
    cases hr : reconcile r w rm re with
    | error e => simp only [hr] at h; cases h
    | ok r' =>
      simp only [hr] at h
      cases hrest : reconcileRows w rm re rest with
      | error e => simp only [hrest] at h; cases h
      | ok rest' =>
        simp only [hrest] at h
        cases h
        rw [List.map_cons, reconcile_ok_padTrunc r w rm re r' hr, ih rest' hrest]

theorem reconcileRows_false_false (w : Nat) :
    ∀ rows : List Row, reconcileRows w false false rows = .ok (rows.map (padTrunc w)) := by
  intro rows
  induction rows with
  | nil => rfl
  | cons r rest ih =>
    rw [reconcileRows]
    simp only [reconcile_false_false, ih]
    rfl

theorem scanRows_all_blank :
    ∀ rows : List Row, (∀ r ∈ rows, blankRow r = true) → scanRows rows = none := by
  intro rows
  induction rows with
  | nil => intro _; rfl
  | cons r rest ih =>
    intro h
    rw [scanRows, if_pos (h r (List.mem_cons_self r rest)),
      ih (fun x hx => h x (List.mem_cons_of_mem r hx))]

theorem scanRows_split (r : Row) (hr : blankRow r = false) :
    ∀ (b a : List Row), (∀ x ∈ b, blankRow x = true) →
      scanRows (b ++ r :: a) = some (b, r, a) := by
  intro b
  induction b with
  | nil =>
    intro a _
    rw [List.nil_append, scanRows, if_neg (by rw [hr]; exact Bool.false_ne_true)]
  | cons x xs ih =>
    intro a hb
    rw [List.cons_append, scanRows,
      if_pos (hb x (List.mem_cons_self x xs)),
      ih a (fun y hy => hb y (List.mem_cons_of_mem x hy))]

theorem detectChunks_cons (maxD : Option Nat) (rm re : Bool) (st : DetectState)
    (c : List Row) (cs : List (List Row)) :
    detectChunks maxD rm re st (c :: cs) =
      match processChunk maxD rm re st c with
      | .error e => .error e
      | .ok (c', st') =>
        match detectChunks maxD rm re st' cs with
        | .error e => .error e
        | .ok (cs', stFin) => .ok (c' :: cs', stFin) := rfl

theorem detectChunks_abandoned (maxD : Option Nat) (rm re : Bool) :
    ∀ cs : List (List Row), detectChunks maxD rm re .abandoned cs = .ok (cs, .abandoned) := by
  intro cs
  induction cs with
  | nil => rfl
  | cons c rest ih =>
    have hp : processChunk maxD rm re .abandoned c = .ok (c, .abandoned) := rfl
    simp only [detectChunks_cons, hp, ih]

theorem processChunk_established_false_false (maxD : Option Nat) (w : Nat) (c : List Row) :
    processChunk maxD false false (.established w) c =
      .ok (c.map (padTrunc w), .established w) := by
  simp only [processChunk, reconcileRows_false_false]

theorem processChunk_established_ok (maxD : Option Nat) (rm re : Bool) (w : Nat)
    (c c' : List Row) (st' : DetectState)
    (h : processChunk maxD rm re (.established w) c = .ok (c', st')) :
    c' = c.map (padTrunc w) ∧ st' = .established w := by
  simp only [processChunk] at h
  cases hrr : reconcileRows w rm re c with
  | error e => simp only [hrr] at h; cases h
  | ok cc =>
    simp only [hrr] at h
    cases h
    exact ⟨reconcileRows_ok_map w rm re c _ hrr, rfl⟩

theorem detectChunks_established (maxD : Option Nat) (rm re : Bool) (w : Nat) :
    ∀ cs : List (List Row),
      (rm = false → re = false →
        detectChunks maxD rm re (.established w) cs =
          .ok (cs.map (List.map (padTrunc w)), .established w)) ∧
      (∀ out st, detectChunks maxD rm re (.established w) cs = .ok (out, st) →
        out = cs.map (List.map (padTrunc w)) ∧ st = .established w) := by
  intro cs
  induction cs with
  | nil =>
    refine ⟨fun _ _ => rfl, fun out st h => ?_⟩
    cases h
    exact ⟨rfl, rfl⟩
  | cons c rest ih =>
    constructor
    · rintro rfl rfl
      simp only [detectChunks_cons, processChunk_established_false_false maxD w c,
        ih.1 rfl rfl, List.map_cons]
    · intro out st h
      rw [detectChunks_cons] at h
      cases hp : processChunk maxD rm re (.established w) c with
      | error e => simp only [hp] at h; cases h
      | ok p =>
        obtain ⟨c', st'⟩ := p
        simp only [hp] at h
        obtain ⟨hc', hst'⟩ := processChunk_established_ok maxD rm re w c c' st' hp
        subst hc'
        subst hst'
        cases hd : detectChunks maxD rm re (.established w) rest with
        | error e => simp only [hd] at h; cases h
        | ok q =>
          obtain ⟨rest', stf⟩ := q
          simp only [hd] at h
          cases h
          obtain ⟨h1, h2⟩ := ih.2 _ _ hd
          rw [h1, h2]
          exact ⟨rfl, rfl⟩

theorem processChunk_scanning_all_blank (maxD : Option Nat) (rm re : Bool) (n : Nat)
    (c : List Row) (hblank : ∀ r ∈ c, blankRow r = true) :
    processChunk maxD rm re (.scanning n) c =
      .ok (c, match maxD with
        | some m => if n + 1 = m then .abandoned else .scanning (n + 1)
        | none => .scanning (n + 1)) := by
  simp only [processChunk, scanRows_all_blank c hblank]
  cases maxD with
  | none => rfl
  | some m =>
    by_cases h : n + 1 = m
    · simp only [if_pos h]
    · simp only [if_neg h]

theorem detect_abandon_general (m : Nat) (rm re : Bool) :
    ∀ (cs : List (List Row)) (n : Nat), n < m → m - n ≤ cs.length →
      (∀ c ∈ cs.take (m - n), ∀ r ∈ c, blankRow r = true) →
      detectChunks (some m) rm re (.scanning n) cs = .ok (cs, .abandoned) := by
  intro cs
  induction cs with
  | nil =>
    intro n hn hlen _
    simp at hlen
    omega
  | cons c rest ih =>
    intro n hn hlen hblank
    have htake : (c :: rest).take (m - n) = c :: rest.take (m - n - 1) := by
      obtain ⟨k, hk⟩ := Nat.exists_eq_succ_of_ne_zero (show m - n ≠ 0 by omega)
      rw [hk, List.take_succ_cons]
      congr 2
    have hcblank : ∀ r ∈ c, blankRow r = true := by
      intro r hr
      exact hblank c (by rw [htake]; exact List.mem_cons_self c _) r hr
    have hp := processChunk_scanning_all_blank (some m) rm re n c hcblank
    by_cases hm : n + 1 = m
    · simp only [if_pos hm] at hp
      simp only [detectChunks_cons, hp, detectChunks_abandoned]
    · simp only [if_neg hm] at hp
      simp only [detectChunks_cons, hp]
      rw [ih (n + 1) (by omega) (by simp at hlen ⊢; omega) ?hblank]
      case hblank =>
        intro cc hcc r hr
        apply hblank cc ?_ r hr
        rw [htake]
        apply List.mem_cons_of_mem
        have : m - n - 1 = m - (n + 1) := by omega
        rw [this]
        exact hcc

/-- C6: with `detect_columns` active and a bounded window of
`max_detect_chunks = m` chunks, if no non-blank row occurs in the first
`m` chunks then the detector transitions to `ABANDONED` and no width
normalization is applied to any row for the remainder of the stream:
every chunk is emitted exactly as it arrived, whatever the shapes of
later rows, and the final state is `ABANDONED`. -/
theorem detect_abandonment (chunks : List (List Row)) (m : Nat) (rm re : Bool)
    (hm : 0 < m) (hlen : m ≤ chunks.length)
    (hblank : ∀ c ∈ chunks.take m, ∀ r ∈ c, blankRow r = true) :
    detectChunks (some m) rm re (.scanning 0) chunks = .ok (chunks, .abandoned) := by
  apply detect_abandon_general m rm re chunks 0 hm (by omega)
  have : m - 0 = m := by omega
  rw [this]
  exact hblank

/-- Witness for C6: a window of one chunk, an all-blank first chunk, and
a later chunk holding rows of widths 3 and 2: everything passes through
unmodified and the detector ends abandoned. -/
theorem detect_abandonment_witness :
    detectChunks (some 1) false false (.scanning 0)
        [[[[]]], [[['a'], ['b'], ['c']], [['d'], ['e']]]] =
      .ok ([[[[]]], [[['a'], ['b'], ['c']], [['d'], ['e']]]], .abandoned) :=
  detect_abandonment [[[[]]], [[['a'], ['b'], ['c']], [['d'], ['e']]]] 1 false false
    (by decide) (by decide) (by decide)

theorem processChunk_scanning_found (maxD : Option Nat) (rm re : Bool) (n : Nat)
    (b a : List Row) (r : Row) (hb : ∀ x ∈ b, blankRow x = true)
    (hr : blankRow r = false) :
    processChunk maxD rm re (.scanning n) (b ++ r :: a) =
      match reconcileRows r.length rm re (r :: a) with
      | .error e => .error e
      | .ok tail => .ok (b ++ tail, .established r.length) := by
  simp only [processChunk, scanRows_split r hr b a hb]

theorem detect_scanning_found (maxD : Option Nat) (rm re : Bool) (r : Row)
    (hr : blankRow r = false) (b a : List Row)
    (hbBlank : ∀ x ∈ b, blankRow x = true) (csPost : List (List Row)) :
    ∀ (csPre : List (List Row)) (n : Nat),
      (∀ c ∈ csPre, ∀ row ∈ c, blankRow row = true) →
      (∀ m, maxD = some m → n + csPre.length < m) →
      (rm = false → re = false →
        detectChunks maxD rm re (.scanning n) (csPre ++ (b ++ r :: a) :: csPost) =
          .ok (csPre ++
              (b ++ (r :: a).map (padTrunc r.length)) ::
                csPost.map (List.map (padTrunc r.length)),
            .established r.length)) ∧
      (∀ out stFin,
        detectChunks maxD rm re (.scanning n) (csPre ++ (b ++ r :: a) :: csPost) =
          .ok (out, stFin) →
        out = csPre ++
            (b ++ (r :: a).map (padTrunc r.length)) ::
              csPost.map (List.map (padTrunc r.length)) ∧
        stFin = .established r.length) := by
  intro csPre
  induction csPre with
  | nil =>
    intro n _ _
    constructor
    · rintro rfl rfl
      simp only [List.nil_append, detectChunks_cons,
        processChunk_scanning_found maxD false false n b a r hbBlank hr,
        reconcileRows_false_false, (detectChunks_established maxD false false r.length csPost).1 rfl rfl]
    · intro out stFin h
      simp only [List.nil_append, detectChunks_cons,
        processChunk_scanning_found maxD rm re n b a r hbBlank hr] at h
      cases hrr : reconcileRows r.length rm re (r :: a) with
      | error e => simp only [hrr] at h; cases h
      | ok tail =>
        simp only [hrr] at h
        cases hd : detectChunks maxD rm re (.established r.length) csPost with
        | error e => simp only [hd] at h; cases h
        | ok q =>
          obtain ⟨csPost', stf⟩ := q
          simp only [hd] at h
          cases h
          obtain ⟨h1, h2⟩ := (detectChunks_established maxD rm re r.length csPost).2 _ _ hd
          rw [h1, h2, reconcileRows_ok_map r.length rm re (r :: a) tail hrr]
          exact ⟨rfl, rfl⟩
  | cons c csRest ih =>
    intro n hPre hwin
    have hcblank : ∀ row ∈ c, blankRow row = true :=
      hPre c (List.mem_cons_self c csRest)
    have hRestBlank : ∀ cc ∈ csRest, ∀ row ∈ cc, blankRow row = true :=
      fun cc hcc => hPre cc (List.mem_cons_of_mem c hcc)
    have hwin' : ∀ m, maxD = some m → (n + 1) + csRest.length < m := by
      intro m hm
      have := hwin m hm
      simp at this ⊢
      omega
    have hnext : processChunk maxD rm re (.scanning n) c = .ok (c, .scanning (n + 1)) := by
      rw [processChunk_scanning_all_blank maxD rm re n c hcblank]
      cases maxD with
      | none => rfl
      | some m =>
        have hne : n + 1 ≠ m := by
          have := hwin m rfl
          simp at this
          omega
        simp only [if_neg hne]
    obtain ⟨ih1, ih2⟩ := ih (n + 1) hRestBlank hwin'
    constructor
    · rintro rfl rfl
      simp only [List.cons_append, detectChunks_cons, hnext, ih1 rfl rfl]
    · intro out stFin h
      simp only [List.cons_append, detectChunks_cons, hnext] at h
      cases hd : detectChunks maxD rm re (.scanning (n + 1))
          (csRest ++ (b ++ r :: a) :: csPost) with
      | error e => simp only [hd] at h; cases h
      | ok q =>
        obtain ⟨out', stf⟩ := q
        simp only [hd] at h
        cases h
        obtain ⟨h1, h2⟩ := ih2 _ _ hd
        rw [h1, h2]
        exact ⟨rfl, rfl⟩

/-- C1: with `detect_columns` on and `normalize_columns` unset, the
first non-blank row (at index `length b` of its chunk, preceded by the
fully scanned all-blank chunks `csPre` and the blank rows `b`, and
inside the scan window) establishes the expected width as its own width;
that row and every row after it in the stream are reconciled to that
width, while every row before it — the rows of `b` and all rows of
chunks scanned earlier — is emitted unmodified, blanks included.  With
the strict flags off the stream always succeeds with exactly that
output; with any flags, any successful output has that shape. -/
theorem detect_boundary (chunks csPre csPost : List (List Row)) (b a : List Row)
    (r : Row) (maxD : Option Nat) (rm re : Bool)
    (hchunks : chunks = csPre ++ (b ++ r :: a) :: csPost)
    (hPre : ∀ c ∈ csPre, ∀ row ∈ c, blankRow row = true)
    (hb : ∀ x ∈ b, blankRow x = true)
    (hr : blankRow r = false)
    (hwin : ∀ m, maxD = some m → csPre.length < m) :
    (rm = false → re = false →
      detectChunks maxD rm re (.scanning 0) chunks =
        .ok (csPre ++
            (b ++ (r :: a).map (padTrunc r.length)) ::
              csPost.map (List.map (padTrunc r.length)),
          .established r.length)) ∧
    (∀ out stFin,
      detectChunks maxD rm re (.scanning 0) chunks = .ok (out, stFin) →
      out = csPre ++
          (b ++ (r :: a).map (padTrunc r.length)) ::
            csPost.map (List.map (padTrunc r.length)) ∧
      stFin = .established r.length) := by
  subst hchunks
  exact detect_scanning_found maxD rm re r hr b a hb csPost csPre 0 hPre
    (by intro m hm; have := hwin m hm; omega)

/-- Witness for C1: the spec's detection-boundary example across two
chunks — a blank chunk, then a chunk `[blank, [a,b,c], [d,e]]`: the
blanks stay unmodified, width 3 is established at `[a,b,c]`, and
`[d,e]` is padded to `[d,e,""]`. -/
theorem detect_boundary_witness :
    detectChunks none false false (.scanning 0)
        [[[[]]], [[[]], [['a'], ['b'], ['c']], [['d'], ['e']]]] =
      .ok ([[[[]]], [[[]], [['a'], ['b'], ['c']], [['d'], ['e'], []]]],
        .established 3) := by
  have h := (detect_boundary [[[[]]], [[[]], [['a'], ['b'], ['c']], [['d'], ['e']]]]
    [[[[]]]] [] [[[]]] [[['d'], ['e']]] [['a'], ['b'], ['c']] none false false
    rfl (by decide) (by decide) (by decide) (by intro m hm; cases hm)).1 rfl rfl
  rw [h]
  rfl
